import Mathlib

/-!
Verification of the core of `HW08_AddressBook.py`: a contact book with
validated phone numbers (exactly ten digits per Python's `str.isdigit`),
birthdays parsed from `DD.MM.YYYY` strings, an upcoming-birthday query with
weekend-to-Monday shifting, and a persistence round-trip.

The Python code is shallowly embedded: `datetime.date` values become the
`PyDate` structure with proleptic-Gregorian ordinal arithmetic, exceptions
become `Except PyError`, and the `AddressBook` dict becomes an association
list with insertion-order dict semantics.
-/

set_option autoImplicit false

/-- Error values raised by the embedded code: Python's `ValueError` and
`KeyError` with their message payloads. -/
inductive PyError where
  | valueError (msg : String)
  | keyError (msg : String)
deriving DecidableEq

/-- A calendar date as a triple, mirroring `datetime.date`'s
year/month/day fields (validity is a separate predicate, as Python
enforces it at construction sites such as `date.replace`). -/
structure PyDate where
  year : Nat
  month : Nat
  day : Nat
deriving DecidableEq

/-- Gregorian leap-year test, as used by `datetime`. -/
def isLeapYear (y : Nat) : Bool :=
  y % 4 == 0 && (y % 100 != 0 || y % 400 == 0)

/-- Days in a month of a given year (`datetime._days_in_month`);
`0` for a month index outside `1..12`. -/
def daysInMonth (y m : Nat) : Nat :=
  match m with
  | 1 => 31
  | 2 => if isLeapYear y then 29 else 28
  | 3 => 31
  | 4 => 30
  | 5 => 31
  | 6 => 30
  | 7 => 31
  | 8 => 31
  | 9 => 30
  | 10 => 31
  | 11 => 30
  | 12 => 31
  | _ => 0

/-- Number of days in the months strictly before month `m` of year `y`. -/
def daysBeforeMonth (y : Nat) : Nat → Nat
  | 0 => 0
  | 1 => 0
  | m + 1 => daysBeforeMonth y m + daysInMonth y m

/-- Number of days in the years strictly before year `y`
(`datetime._days_before_year`). -/
def daysBeforeYear (y : Nat) : Nat :=
  365 * (y - 1) + (y - 1) / 4 + (y - 1) / 400 - (y - 1) / 100

/-- Proleptic Gregorian ordinal of a date (`date.toordinal`):
January 1 of year 1 has ordinal 1. -/
def toordinal (d : PyDate) : Nat :=
  daysBeforeYear d.year + daysBeforeMonth d.year d.month + d.day

/-- `date.weekday()`: Monday is 0, Sunday is 6. -/
def pyWeekday (d : PyDate) : Nat :=
  (toordinal d + 6) % 7

/-- The date-field validity condition checked by `datetime._check_date_fields`
(`MINYEAR = 1`, `MAXYEAR = 9999`). -/
def isValidDate (d : PyDate) : Prop :=
  1 ≤ d.year ∧ d.year ≤ 9999 ∧ 1 ≤ d.month ∧ d.month ≤ 12 ∧
    1 ≤ d.day ∧ d.day ≤ daysInMonth d.year d.month

instance (d : PyDate) : Decidable (isValidDate d) := by
  unfold isValidDate; infer_instance

/-- `date.__lt__`: lexicographic comparison of (year, month, day). -/
def dateLt (a b : PyDate) : Bool :=
  decide (a.year < b.year ∨ (a.year = b.year ∧
    (a.month < b.month ∨ (a.month = b.month ∧ a.day < b.day))))

/-- The day after `d` in calendar order (used to embed `+ timedelta(days=k)`,
which Python computes through `date.fromordinal`). -/
def nextDay (d : PyDate) : PyDate :=
  if d.day < daysInMonth d.year d.month then ⟨d.year, d.month, d.day + 1⟩
  else if d.month < 12 then ⟨d.year, d.month + 1, 1⟩
  else ⟨d.year + 1, 1, 1⟩

/-- `d + timedelta(days=k)` for `k ≥ 0`. -/
def addDays (d : PyDate) (k : Nat) : PyDate :=
  match k with
  | 0 => d
  | k + 1 => addDays (nextDay d) k

/-- `d1 - d2` in whole days (`timedelta.days` of a date difference). -/
def dateSubDays (d1 d2 : PyDate) : Int :=
  (toordinal d1 : Int) - (toordinal d2 : Int)

/-- `d.replace(year=y)`: keeps month and day, revalidates all fields exactly
as `datetime._check_date_fields` does, raising `ValueError` on failure. -/
def dateReplaceYear (d : PyDate) (y : Nat) : Except PyError PyDate :=
  if ¬ (1 ≤ y ∧ y ≤ 9999) then
    .error (.valueError ("year " ++ toString y ++ " is out of range"))
  else if ¬ (1 ≤ d.month ∧ d.month ≤ 12) then
    .error (.valueError "month must be in 1..12")
  else if ¬ (1 ≤ d.day ∧ d.day ≤ daysInMonth y d.month) then
    .error (.valueError "day is out of range for month")
  else
    .ok ⟨y, d.month, d.day⟩

/-! ## Characters and string formatting -/

/-- ASCII decimal digit test. -/
def isAsciiDigit (c : Char) : Bool :=
  decide (48 ≤ c.toNat ∧ c.toNat ≤ 57)

/-- Numeric value of an ASCII digit character. -/
def digitVal (c : Char) : Nat :=
  c.toNat - 48

/-- The ASCII digit character for `n % 10`. -/
def digitChar (n : Nat) : Char :=
  match n % 10 with
  | 0 => '0'
  | 1 => '1'
  | 2 => '2'
  | 3 => '3'
  | 4 => '4'
  | 5 => '5'
  | 6 => '6'
  | 7 => '7'
  | 8 => '8'
  | _ => '9'

/-- Two-digit zero-padded decimal rendering (strftime `%d`, `%m`). -/
def pad2 (n : Nat) : List Char :=
  [digitChar (n / 10), digitChar n]

/-- Four-digit zero-padded decimal rendering (strftime `%Y`; the embedding
uses the zero-padded form for years below 1000). -/
def pad4 (n : Nat) : List Char :=
  [digitChar (n / 1000), digitChar (n / 100), digitChar (n / 10), digitChar n]

/-- `d.strftime("%Y.%m.%d")`, the congratulation-date format. -/
def formatYMD (d : PyDate) : String :=
  String.mk (pad4 d.year ++ '.' :: pad2 d.month ++ '.' :: pad2 d.day)

/-- `d.strftime("%d.%m.%Y")`, the `Birthday.__str__` format. -/
def formatDMY (d : PyDate) : String :=
  String.mk (pad2 d.day ++ '.' :: pad2 d.month ++ '.' :: pad4 d.year)

/-- Read one or two ASCII digits greedily (strptime `%d` / `%m` field;
range checks are performed afterwards, with the same accept/reject
outcome as the reference regular expressions). -/
def takeD2 : List Char → Option (Nat × List Char)
  | c1 :: c2 :: rest =>
    if isAsciiDigit c1 then
      if isAsciiDigit c2 then some (digitVal c1 * 10 + digitVal c2, rest)
      else some (digitVal c1, c2 :: rest)
    else none
  | [c1] => if isAsciiDigit c1 then some (digitVal c1, []) else none
  | [] => none

/-- Read exactly four ASCII digits (strptime `%Y` field). -/
def takeD4 : List Char → Option (Nat × List Char)
  | c1 :: c2 :: c3 :: c4 :: rest =>
    if isAsciiDigit c1 && isAsciiDigit c2 && isAsciiDigit c3 && isAsciiDigit c4 then
      some (digitVal c1 * 1000 + digitVal c2 * 100 + digitVal c3 * 10 + digitVal c4, rest)
    else none
  | _ => none

/-- Tokenize `D[D].M[M].YYYY` and require the whole input to be consumed,
as `datetime.strptime(value, "%d.%m.%Y")` does. -/
def parseDMY (cs : List Char) : Option (Nat × Nat × Nat) :=
  match takeD2 cs with
  | none => none
  | some (d, rest1) =>
    match rest1 with
    | '.' :: rest2 =>
      match takeD2 rest2 with
      | none => none
      | some (m, rest3) =>
        match rest3 with
        | '.' :: rest4 =>
          match takeD4 rest4 with
          | none => none
          | some (y, rest5) => if rest5 = [] then some (d, m, y) else none
        | _ => none
    | _ => none

/-- `datetime.strptime(value, "%d.%m.%Y").date()`: tokenization followed by
the `date` constructor's field validation; `none` models the `ValueError`. -/
def pyStrptimeDMY (s : String) : Option PyDate :=
  match parseDMY s.data with
  | none => none
  | some (d, m, y) =>
    if 1 ≤ y ∧ y ≤ 9999 ∧ 1 ≤ m ∧ m ≤ 12 ∧ 1 ≤ d ∧ d ≤ daysInMonth y m then
      some ⟨y, m, d⟩
    else none

/-- Python's `str.isdigit` character classification (Unicode characters of
Numeric_Type `Decimal` or `Digit`), over the principal Basic Multilingual
Plane ranges together with the superscript and subscript digits: this is a
strict superset of the ASCII digits. -/
def pyDigitRanges : List (Nat × Nat) :=
  [(0x30, 0x39), (0xB2, 0xB3), (0xB9, 0xB9),
   (0x660, 0x669), (0x6F0, 0x6F9), (0x7C0, 0x7C9), (0x966, 0x96F),
   (0x9E6, 0x9EF), (0xA66, 0xA6F), (0xAE6, 0xAEF), (0xB66, 0xB6F),
   (0xBE6, 0xBEF), (0xC66, 0xC6F), (0xCE6, 0xCEF), (0xD66, 0xD6F),
   (0xDE6, 0xDEF), (0xE50, 0xE59), (0xED0, 0xED9), (0xF20, 0xF29),
   (0x1040, 0x1049), (0x1090, 0x1099), (0x17E0, 0x17E9), (0x1810, 0x1819),
   (0x2070, 0x2070), (0x2074, 0x2079), (0x2080, 0x2089), (0xFF10, 0xFF19)]

/-- A character is a Python digit when its code point lies in one of the
ranges of the table. -/
def pyIsDigitChar (c : Char) : Bool :=
  pyDigitRanges.any (fun p => decide (p.1 ≤ c.toNat ∧ c.toNat ≤ p.2))

/-- `str.isdigit`: true when the string is non-empty and every character is
a digit in the above classification. -/
def pyIsDigitStr (s : String) : Bool :=
  !s.data.isEmpty && s.data.all pyIsDigitChar

/-! ## Field validators (`Phone.__init__`, `Birthday.__init__`) -/

/-- `Phone.__init__`: accepts exactly the strings `value` with
`value.isdigit() and len(value) == 10`, storing `value` itself; the
`isinstance` check is vacuous for string input. -/
def phoneInit (value : String) : Except PyError String :=
  if !(pyIsDigitStr value && value.length == 10) then
    .error (.valueError "Телефонний номер повинен складатися рівно з 10 цифр.")
  else
    .ok value

/-- `Birthday.__init__`: parses `DD.MM.YYYY`, re-raising any parse failure
as the format-message `ValueError`, and stores the parsed date. -/
def birthdayInit (value : String) : Except PyError PyDate :=
  match pyStrptimeDMY value with
  | none => .error (.valueError "Дата повинна бути у форматі DD.MM.YYYY і бути коректною датою.")
  | some d => .ok d

/-! ## `Record` -/

/-- A contact record: `Name` and `Phone` objects are represented by the
strings they wrap, `Birthday` by the date it wraps. -/
structure Record where
  name : String
  phones : List String
  birthday : Option PyDate
deriving DecidableEq

namespace Record

/-- `Record.__init__(name)`. -/
def init (name : String) : Record :=
  ⟨name, [], none⟩

/-- `Record.add_phone`: validates, then appends unless an equal value is
already stored. -/
def add_phone (r : Record) (phone_str : String) : Except PyError Record :=
  (phoneInit phone_str).map fun v =>
    if r.phones.any (· == v) then r else { r with phones := r.phones ++ [v] }

/-- `Record.remove_phone`: removes the first phone with the given value;
silent when absent, no validation of the argument. -/
def remove_phone (r : Record) (phone_str : String) : Record :=
  { r with phones := r.phones.eraseP (· == phone_str) }

/-- `Record.edit_phone`: scans for the first phone equal to `old_phone`;
only on a hit does it construct (validate) the new phone and overwrite that
position, returning `true`; otherwise returns `false` untouched. -/
def edit_phone (r : Record) (old_phone new_phone : String) :
    Except PyError (Bool × Record) :=
  match r.phones.findIdx? (· == old_phone) with
  | some idx =>
    (phoneInit new_phone).map fun v => (true, { r with phones := r.phones.set idx v })
  | none => .ok (false, r)

/-- `Record.add_birthday`: validates and overwrites the stored birthday. -/
def add_birthday (r : Record) (bday_str : String) : Except PyError Record :=
  (birthdayInit bday_str).map fun d => { r with birthday := some d }

end Record

/-! ## `AddressBook` -/

/-- The `AddressBook` dict, as an association list in insertion order
(Python dicts preserve insertion order, and assignment to an existing key
keeps its position). -/
abbrev AddressBook := List (String × Record)

/-- One dict entry per qualifying record, with the congratulation date
already `strftime`-formatted. -/
structure UpcomingEntry where
  name : String
  congratulation_date : String
deriving DecidableEq

namespace AddressBook

/-- `name in self.data`. -/
def hasKey (book : AddressBook) (name : String) : Bool :=
  book.any (fun p => p.1 == name)

/-- `self.data.get(name)`. -/
def get (book : AddressBook) (name : String) : Option Record :=
  (book.find? (fun p => p.1 == name)).map (·.2)

/-- `AddressBook.add_record`: `self.data[record.name.value] = record` — an
existing key keeps its position, a fresh key is appended. -/
def add_record (book : AddressBook) (record : Record) : AddressBook :=
  if book.any (fun p => p.1 == record.name) then
    book.map (fun p => if p.1 == record.name then (record.name, record) else p)
  else
    book ++ [(record.name, record)]

/-- `AddressBook.find`: returns the record or raises `KeyError`. -/
def find (book : AddressBook) (name : String) : Except PyError Record :=
  match get book name with
  | none => .error (.keyError (name ++ " not found in AddressBook."))
  | some rec => .ok rec

/-- `AddressBook.delete`: removes the entry when present and reports
whether removal occurred; never raises. -/
def delete (book : AddressBook) (name : String) : Bool × AddressBook :=
  if hasKey book name then (true, book.eraseP (fun p => p.1 == name))
  else (false, book)

/-- The loop body of `get_upcoming_birthdays` over the remaining records:
skips records without a birthday, projects the birthday onto `today`'s year
via `date.replace` (whose `ValueError` propagates), re-projects onto the
next year when the projection precedes today, keeps projections 0–6 days
ahead, and shifts Saturday by two days and Sunday by one. -/
def upcomingAux (today : PyDate) : List (String × Record) → Except PyError (List UpcomingEntry)
  | [] => .ok []
  | (_, record) :: rest =>
    match record.birthday with
    | none => upcomingAux today rest
    | some bday =>
      match dateReplaceYear bday today.year with
      | .error e => .error e
      | .ok b0 =>
        match (if dateLt b0 today then dateReplaceYear b0 (today.year + 1) else .ok b0) with
        | .error e => .error e
        | .ok birthday_this_year =>
          let days_ahead := dateSubDays birthday_this_year today
          if 0 ≤ days_ahead ∧ days_ahead ≤ 6 then
            let congratulation_date :=
              if pyWeekday birthday_this_year == 5 then addDays birthday_this_year 2
              else if pyWeekday birthday_this_year == 6 then addDays birthday_this_year 1
              else birthday_this_year
            (upcomingAux today rest).map
              (fun l => ⟨record.name, formatYMD congratulation_date⟩ :: l)
          else upcomingAux today rest

/-- `AddressBook.get_upcoming_birthdays`, with `date.today()` made an
explicit parameter. -/
def get_upcoming_birthdays (book : AddressBook) (today : PyDate) :
    Except PyError (List UpcomingEntry) :=
  upcomingAux today book

end AddressBook

/-! ## Specification-side description of the upcoming-birthdays query

These definitions follow the specification's words (§4.5), to be compared
with the embedded `get_upcoming_birthdays`. -/

/-- Steps 1–2 of the specification: project the birthday's month/day onto
`today`'s year and re-project onto the next year when the projection is
before today; `none` when the month/day does not exist in the target
year. -/
def specProjected (bday today : PyDate) : Option PyDate :=
  ((dateReplaceYear bday today.year).toOption).bind fun p =>
    if dateLt p today then (dateReplaceYear p (today.year + 1)).toOption else some p

/-- Step 5 of the specification: a Saturday projection is shifted by two
days and a Sunday projection by one day; other projections are kept. -/
def specMondayShift (proj : PyDate) : PyDate :=
  if pyWeekday proj = 5 then addDays proj 2
  else if pyWeekday proj = 6 then addDays proj 1
  else proj

/-- The specification's treatment of a single record: `none` when the
record has no birthday or does not qualify, otherwise its
`name`/`congratulationDate` entry with the date `YYYY.MM.DD`-formatted. -/
def specRecordEntry (today : PyDate) (p : String × Record) : Option UpcomingEntry :=
  match p.2.birthday with
  | none => none
  | some bday =>
    match specProjected bday today with
    | none => none
    | some proj =>
      if 0 ≤ dateSubDays proj today ∧ dateSubDays proj today ≤ 6 then
        some ⟨p.2.name, formatYMD (specMondayShift proj)⟩
      else none

/-- The full specification description: consider exactly the records with
a set birthday, keep those whose (re-)projected date is 0–6 whole days
ahead of today inclusive, and emit one `name`/`congratulationDate` entry
each, in the book's iteration order. -/
def upcomingBirthdaysSpec (book : AddressBook) (today : PyDate) : List UpcomingEntry :=
  book.filterMap (specRecordEntry today)

/-! ## Persistence

`save_data` and `load_data` delegate the byte-stream format entirely to
`pickle.dump`/`pickle.load` from the Python standard library, which is not
part of this repository.

Modelled from the spec: §4.6 — `save(book) -> bytes` "serializes the full
AddressBook (all Records, all fields) into an opaque byte stream" and
`load(bytes) -> AddressBook` deserializes it; the opaque stream is modelled
as a token list with a straightforward self-delimiting encoding of every
field. -/

/-- Encoding of a string: length followed by the code points. -/
def encString (s : String) : List Nat :=
  s.data.length :: s.data.map Char.toNat

/-- Encoding of an optional birthday. -/
def encBirthday : Option PyDate → List Nat
  | none => [0]
  | some d => [1, d.year, d.month, d.day]

/-- Encoding of a record: name, phone count, phones, birthday. -/
def encRecord (r : Record) : List Nat :=
  encString r.name ++ r.phones.length :: (r.phones.map encString).flatten
    ++ encBirthday r.birthday

/-- Encoding of one dict entry: key then record. -/
def encEntry (p : String × Record) : List Nat :=
  encString p.1 ++ encRecord p.2

/-- Modelled from the spec: `save_data` pickles the whole book; here, the
entry count followed by the entries in iteration order. -/
def save_data (book : AddressBook) : List Nat :=
  book.length :: (book.map encEntry).flatten

/-- Decode a string: read a length, then that many code points. -/
def decChars : Nat → List Nat → Option (List Char × List Nat)
  | 0, rest => some ([], rest)
  | _ + 1, [] => none
  | n + 1, c :: rest =>
    if c < 0xd800 ∨ (0xdfff < c ∧ c < 0x110000) then
      (decChars n rest).map fun q => (Char.ofNat c :: q.1, q.2)
    else none

/-- Decode a length-prefixed string. -/
def decString : List Nat → Option (String × List Nat)
  | [] => none
  | n :: rest => (decChars n rest).map fun q => (String.mk q.1, q.2)

/-- Decode a count-prefixed list of strings. -/
def decStrings : Nat → List Nat → Option (List String × List Nat)
  | 0, rest => some ([], rest)
  | n + 1, rest =>
    (decString rest).bind fun q =>
      (decStrings n q.2).map fun q2 => (q.1 :: q2.1, q2.2)

/-- Decode an optional birthday. -/
def decBirthday : List Nat → Option (Option PyDate × List Nat)
  | 0 :: rest => some (none, rest)
  | 1 :: y :: m :: d :: rest => some (some ⟨y, m, d⟩, rest)
  | _ => none

/-- Decode one record. -/
def decRecord (ts : List Nat) : Option (Record × List Nat) :=
  (decString ts).bind fun qn =>
    match qn.2 with
    | [] => none
    | np :: rest =>
      (decStrings np rest).bind fun qp =>
        (decBirthday qp.2).map fun qb => (⟨qn.1, qp.1, qb.1⟩, qb.2)

/-- Decode a count-prefixed list of entries. -/
def decEntries : Nat → List Nat → Option (AddressBook × List Nat)
  | 0, rest => some ([], rest)
  | n + 1, rest =>
    (decString rest).bind fun qk =>
      (decRecord qk.2).bind fun qr =>
        (decEntries n qr.2).map fun qs => ((qk.1, qr.1) :: qs.1, qs.2)

/-- Modelled from the spec: `load_data` unpickles one AddressBook from the
stream; `none` models a deserialization failure. -/
def load_data : List Nat → Option AddressBook
  | [] => none
  | n :: rest => (decEntries n rest).map (·.1)

/-! ## Books reachable through `add_record` and `delete` -/

/-- The address books reachable from the empty book through `add_record`
and `delete`, the mutations of the book's entry map. -/
inductive Reachable : AddressBook → Prop where
  | empty : Reachable []
  | add {b : AddressBook} (r : Record) : Reachable b → Reachable (AddressBook.add_record b r)
  | del {b : AddressBook} (n : String) : Reachable b → Reachable (AddressBook.delete b n).2

/-- The keys of the book's entries are pairwise distinct (every Python
dict satisfies this). -/
def keysNodup (book : AddressBook) : Prop :=
  (book.map Prod.fst).Nodup

instance (book : AddressBook) : Decidable (keysNodup book) := by
  unfold keysNodup
  infer_instance

/-! ## Concrete fixtures (test data used by the closed theorems below) -/

/-- Contact whose projected 2024 birthday, June 15, is a Saturday. -/
def wAlice : Record := ⟨"Alice", ["1111111111"], some ⟨1990, 6, 15⟩⟩

/-- Contact whose projected 2024 birthday, June 16, is a Sunday. -/
def wBob : Record := ⟨"Bob", [], some ⟨1985, 6, 16⟩⟩

/-- Contact whose birthday is ten days ahead of 2024-06-10. -/
def wCarol : Record := ⟨"Carol", [], some ⟨2000, 6, 20⟩⟩

/-- Contact with no birthday set. -/
def wDave : Record := ⟨"Dave", ["2222222222"], none⟩

/-- The four-contact scenario book. -/
def wbook : AddressBook :=
  [("Alice", wAlice), ("Bob", wBob), ("Carol", wCarol), ("Dave", wDave)]

/-- A single-contact book whose projected birthday falls on a Saturday. -/
def wSatBook : AddressBook := [("Alice", wAlice)]

/-- A book with a February 29 birthday. -/
def bookLesia : AddressBook := [("Lesia", ⟨"Lesia", [], some ⟨2024, 2, 29⟩⟩)]

/-- Another book with a February 29 birthday. -/
def bookOlha : AddressBook := [("Olha", ⟨"Olha", [], some ⟨2020, 2, 29⟩⟩)]

/-- A record with one stored phone. -/
def rEdit : Record := ⟨"A", ["1234567890"], none⟩

/-! ## Helper lemmas: lists -/

theorem findIdx?_some_spec {α : Type} (p : α → Bool) (l : List α) (i : Nat)
    (h : l.findIdx? p = some i) :
    ∃ a, l[i]? = some a ∧ p a = true ∧
      ∀ j, j < i → ∀ b, l[j]? = some b → p b = false := by
  induction l generalizing i with
  | nil => simp [List.findIdx?] at h
  | cons x xs ih =>
    rw [List.findIdx?_cons] at h
    by_cases hp : p x = true
    · rw [if_pos hp] at h
      cases h
      exact ⟨x, by simp, hp, fun j hj b hb => absurd hj (by omega)⟩
    · rw [if_neg hp] at h
      rw [List.findIdx?_succ] at h
      cases hfx : List.findIdx? p xs with
      | none => rw [hfx] at h; simp at h
      | some k =>
        rw [hfx] at h
        simp at h
        subst h
        obtain ⟨a, ha, hpa, hmin⟩ := ih k hfx
        refine ⟨a, ?_, hpa, ?_⟩
        · simpa using ha
        · intro j hj b hb
          cases j with
          | zero =>
            simp only [List.getElem?_cons_zero, Option.some.injEq] at hb
            rw [← hb]
            simpa using hp
          | succ j2 =>
            have hsh : (x :: xs)[j2 + 1]? = xs[j2]? := by simp
            rw [hsh] at hb
            exact hmin j2 (by omega) b hb

theorem nodup_set_keep {α : Type} [DecidableEq α] (l : List α) (i : Nat) (v : α)
    (hnd : l.Nodup) (hv : v ∉ l ∨ l[i]? = some v) : (l.set i v).Nodup := by
  induction l generalizing i with
  | nil => simp
  | cons x xs ih =>
    obtain ⟨hx, hxs⟩ := List.nodup_cons.mp hnd
    cases i with
    | zero =>
      simp only [List.set_cons_zero, List.nodup_cons]
      refine ⟨?_, hxs⟩
      rcases hv with hv | hv
      · exact fun hc => hv (List.mem_cons_of_mem x hc)
      · simp only [List.getElem?_cons_zero, Option.some.injEq] at hv
        rw [hv] at hx
        exact hx
    | succ i2 =>
      simp only [List.set_cons_succ, List.nodup_cons]
      constructor
      · intro hc
        rcases List.mem_or_eq_of_mem_set hc with hin | heq
        · exact hx hin
        · rcases hv with hv | hv
          · exact hv (heq ▸ List.mem_cons_self x xs)
          · simp only [List.getElem?_cons_succ] at hv
            have : v ∈ xs := List.getElem?_mem hv
            rw [← heq] at this
            exact hx this
      · refine ih i2 hxs ?_
        rcases hv with hv | hv
        · exact Or.inl (fun hc => hv (List.mem_cons_of_mem x hc))
        · simp only [List.getElem?_cons_succ] at hv
          exact Or.inr hv

theorem findIdx?_beq_none_iff (l : List String) (a : String) :
    l.findIdx? (· == a) = none ↔ a ∉ l := by
  rw [List.findIdx?_eq_none_iff]
  constructor
  · intro h hmem
    have := h a hmem
    simp at this
  · intro h x hx
    have : x ≠ a := fun hc => h (hc ▸ hx)
    simpa using this

/-! ## Helper lemmas: phone validation -/

theorem phoneInit_ok_iff (s t : String) :
    phoneInit s = .ok t ↔ (pyIsDigitStr s = true ∧ s.length = 10 ∧ t = s) := by
  unfold phoneInit
  cases hc : pyIsDigitStr s && s.length == 10 with
  | false =>
    simp only [hc, Bool.not_false, if_true]
    constructor
    · intro h2
      exact Except.noConfusion h2
    · rintro ⟨h1, h2, -⟩
      rw [Bool.and_eq_false_iff] at hc
      rcases hc with hc | hc
      · rw [h1] at hc
        exact Bool.noConfusion hc
      · rw [h2] at hc
        simp at hc
  | true =>
    simp only [hc, Bool.not_true, if_false]
    rw [Bool.and_eq_true] at hc
    constructor
    · intro h2
      injection h2 with h2
      exact ⟨hc.1, by simpa using hc.2, h2.symm⟩
    · rintro ⟨-, -, rfl⟩
      rfl

theorem phoneInit_error_iff (s : String) :
    (¬ (pyIsDigitStr s = true ∧ s.length = 10)) ↔
      phoneInit s = .error (.valueError "Телефонний номер повинен складатися рівно з 10 цифр.") := by
  unfold phoneInit
  cases hc : pyIsDigitStr s && s.length == 10 with
  | false =>
    simp only [hc, Bool.not_false, if_true]
    constructor
    · intro _
      trivial
    · intro _ h2
      rw [Bool.and_eq_false_iff] at hc
      rcases hc with hc | hc
      · rw [h2.1] at hc
        exact Bool.noConfusion hc
      · rw [h2.2] at hc
        simp at hc
  | true =>
    simp only [hc, Bool.not_true, if_false]
    rw [Bool.and_eq_true] at hc
    constructor
    · intro h2
      exact absurd ⟨hc.1, by simpa using hc.2⟩ h2
    · intro h2
      exact Except.noConfusion h2

/-! ## Helper lemmas: persistence codec -/

theorem decChars_enc (cs : List Char) (t : List Nat) :
    decChars cs.length (cs.map Char.toNat ++ t) = some (cs, t) := by
  induction cs with
  | nil => rfl
  | cons c cs ih =>
    show decChars (cs.length + 1) (c.toNat :: (cs.map Char.toNat ++ t)) = _
    unfold decChars
    have hv : c.toNat < 55296 ∨ (57343 < c.toNat ∧ c.toNat < 1114112) := c.valid
    rw [if_pos hv, ih]
    simp [Char.ofNat_toNat]

theorem decString_enc (s : String) (t : List Nat) :
    decString (encString s ++ t) = some (s, t) := by
  show decString (s.data.length :: (s.data.map Char.toNat ++ t)) = _
  unfold decString
  dsimp only
  rw [decChars_enc]
  rfl

theorem decStrings_enc (l : List String) (t : List Nat) :
    decStrings l.length ((l.map encString).flatten ++ t) = some (l, t) := by
  induction l with
  | nil => rfl
  | cons s l ih =>
    show decStrings (l.length + 1) ((encString s ++ (l.map encString).flatten) ++ t) = _
    rw [List.append_assoc]
    unfold decStrings
    rw [decString_enc]
    dsimp only [Option.bind]
    rw [ih]
    rfl

theorem decBirthday_enc (b : Option PyDate) (t : List Nat) :
    decBirthday (encBirthday b ++ t) = some (b, t) := by
  cases b with
  | none => rfl
  | some d => rfl

theorem decRecord_enc (r : Record) (t : List Nat) :
    decRecord (encRecord r ++ t) = some (r, t) := by
  unfold decRecord encRecord
  simp only [List.append_assoc, List.cons_append]
  rw [decString_enc]
  dsimp only [Option.bind]
  rw [decStrings_enc]
  dsimp only [Option.bind]
  rw [decBirthday_enc]
  rfl

theorem decEntries_enc (b : AddressBook) (t : List Nat) :
    decEntries b.length ((b.map encEntry).flatten ++ t) = some (b, t) := by
  induction b with
  | nil => rfl
  | cons p b ih =>
    show decEntries (b.length + 1)
      (((encString p.1 ++ encRecord p.2) ++ (b.map encEntry).flatten) ++ t) = _
    unfold decEntries
    simp only [List.append_assoc]
    rw [decString_enc]
    dsimp only [Option.bind]
    rw [decRecord_enc]
    dsimp only [Option.bind]
    rw [ih]
    rfl

/-! ## Helper lemmas: decimal digits -/

theorem isAsciiDigit_digitChar (n : Nat) : isAsciiDigit (digitChar n) = true := by
  have h : n % 10 = 0 ∨ n % 10 = 1 ∨ n % 10 = 2 ∨ n % 10 = 3 ∨ n % 10 = 4 ∨
      n % 10 = 5 ∨ n % 10 = 6 ∨ n % 10 = 7 ∨ n % 10 = 8 ∨ n % 10 = 9 := by omega
  rcases h with h|h|h|h|h|h|h|h|h|h <;> simp [digitChar, h] <;> decide

theorem digitVal_digitChar (n : Nat) : digitVal (digitChar n) = n % 10 := by
  have h : n % 10 = 0 ∨ n % 10 = 1 ∨ n % 10 = 2 ∨ n % 10 = 3 ∨ n % 10 = 4 ∨
      n % 10 = 5 ∨ n % 10 = 6 ∨ n % 10 = 7 ∨ n % 10 = 8 ∨ n % 10 = 9 := by omega
  rcases h with h|h|h|h|h|h|h|h|h|h <;> simp [digitChar, h] <;> decide

theorem takeD2_pad2 (a : Nat) (ha : a ≤ 99) (rest : List Char) :
    takeD2 (pad2 a ++ rest) = some (a, rest) := by
  simp only [pad2, List.cons_append, List.nil_append, takeD2, isAsciiDigit_digitChar,
    if_true, digitVal_digitChar]
  have : a / 10 % 10 * 10 + a % 10 = a := by omega
  rw [this]

theorem takeD4_pad4 (y : Nat) (hy : y ≤ 9999) (rest : List Char) :
    takeD4 (pad4 y ++ rest) = some (y, rest) := by
  simp only [pad4, List.cons_append, List.nil_append, takeD4, isAsciiDigit_digitChar,
    Bool.and_self, if_true, digitVal_digitChar]
  have : y / 1000 % 10 * 1000 + y / 100 % 10 * 100 + y / 10 % 10 * 10 + y % 10 = y := by
    omega
  rw [this]

/-! ## Helper lemmas: calendar arithmetic -/

/-- The fields of a valid date, without the 9999 upper bound on the year
(which day stepping may leave). -/
def validMD (d : PyDate) : Prop :=
  1 ≤ d.year ∧ 1 ≤ d.month ∧ d.month ≤ 12 ∧ 1 ≤ d.day ∧
    d.day ≤ daysInMonth d.year d.month

theorem validMD_of_isValidDate {d : PyDate} (h : isValidDate d) : validMD d := by
  obtain ⟨h1, h2, h3, h4, h5, h6⟩ := h
  exact ⟨h1, h3, h4, h5, h6⟩

theorem one_le_daysInMonth (y m : Nat) (h1 : 1 ≤ m) (h2 : m ≤ 12) :
    1 ≤ daysInMonth y m := by
  interval_cases m <;> simp only [daysInMonth] <;> (try split) <;> omega

theorem daysBeforeMonth_succ (y m : Nat) (h : 1 ≤ m) :
    daysBeforeMonth y (m + 1) = daysBeforeMonth y m + daysInMonth y m := by
  cases m with
  | zero => omega
  | succ k => rfl

theorem isLeapYear_iff (y : Nat) :
    isLeapYear y = true ↔ (y % 4 = 0 ∧ (y % 100 ≠ 0 ∨ y % 400 = 0)) := by
  simp [isLeapYear, Bool.and_eq_true, Bool.or_eq_true]

set_option maxHeartbeats 1000000 in
theorem daysBeforeYear_succ (y : Nat) (hy : 1 ≤ y) :
    daysBeforeYear (y + 1) =
      daysBeforeYear y + (if isLeapYear y then 366 else 365) := by
  obtain ⟨n, rfl⟩ : ∃ n, y = n + 1 := ⟨y - 1, by omega⟩
  simp only [daysBeforeYear, Nat.add_sub_cancel]
  have a4 : (n + 1) % 4 = 0 → (n + 1) / 4 = n / 4 + 1 := by omega
  have b4 : (n + 1) % 4 ≠ 0 → (n + 1) / 4 = n / 4 := by omega
  have a100 : (n + 1) % 100 = 0 → (n + 1) / 100 = n / 100 + 1 := by omega
  have b100 : (n + 1) % 100 ≠ 0 → (n + 1) / 100 = n / 100 := by omega
  have a400 : (n + 1) % 400 = 0 → (n + 1) / 400 = n / 400 + 1 := by omega
  have b400 : (n + 1) % 400 ≠ 0 → (n + 1) / 400 = n / 400 := by omega
  have i100 : (n + 1) % 100 = 0 → (n + 1) % 4 = 0 := by omega
  have i400 : (n + 1) % 400 = 0 → (n + 1) % 100 = 0 := by omega
  have hle : n / 100 ≤ n / 4 := Nat.div_le_div_left (by norm_num) (by norm_num)
  by_cases hl : isLeapYear (n + 1) = true
  · rw [if_pos hl]
    rw [isLeapYear_iff] at hl
    obtain ⟨h4, hor⟩ := hl
    rcases hor with h100 | h400
    · have h400 : (n + 1) % 400 ≠ 0 := fun hc => h100 (i400 hc)
      rw [a4 h4, b100 h100, b400 h400]
      omega
    · have h100 : (n + 1) % 100 = 0 := i400 h400
      rw [a4 h4, a100 h100, a400 h400]
      omega
  · rw [if_neg hl]
    have hl' : ¬ ((n + 1) % 4 = 0 ∧ ((n + 1) % 100 ≠ 0 ∨ (n + 1) % 400 = 0)) :=
      fun hc => hl ((isLeapYear_iff (n + 1)).mpr hc)
    by_cases h4 : (n + 1) % 4 = 0
    · have h100 : (n + 1) % 100 = 0 := by
        by_contra hc
        exact hl' ⟨h4, Or.inl hc⟩
      have h400 : (n + 1) % 400 ≠ 0 := fun hc => hl' ⟨h4, Or.inr hc⟩
      rw [a4 h4, a100 h100, b400 h400]
      omega
    · have h100 : (n + 1) % 100 ≠ 0 := fun hc => h4 (i100 hc)
      have h400 : (n + 1) % 400 ≠ 0 := fun hc => h4 (i100 (i400 hc))
      rw [b4 h4, b100 h100, b400 h400]
      omega

theorem daysBeforeMonth_twelve (y : Nat) :
    daysBeforeMonth y 12 + 31 = if isLeapYear y then 366 else 365 := by
  by_cases hl : isLeapYear y = true <;>
    simp [daysBeforeMonth, daysInMonth, hl]

theorem toordinal_nextDay (d : PyDate) (h : validMD d) :
    toordinal (nextDay d) = toordinal d + 1 := by
  obtain ⟨hy, hm1, hm2, hd1, hd2⟩ := h
  unfold nextDay
  by_cases hlt : d.day < daysInMonth d.year d.month
  · rw [if_pos hlt]
    simp only [toordinal]
    try dsimp only
    omega
  · rw [if_neg hlt]
    have hday : d.day = daysInMonth d.year d.month := by omega
    by_cases hm : d.month < 12
    · rw [if_pos hm]
      simp only [toordinal]
      try dsimp only
      rw [daysBeforeMonth_succ d.year d.month hm1]
      omega
    · rw [if_neg hm]
      have hm12 : d.month = 12 := by omega
      have hday31 : d.day = 31 := by
        rw [hm12] at hday
        norm_num [daysInMonth] at hday
        exact hday
      simp only [toordinal]
      try dsimp only
      rw [daysBeforeYear_succ d.year hy, ← daysBeforeMonth_twelve d.year, hm12]
      have hz : daysBeforeMonth (d.year + 1) 1 = 0 := rfl
      rw [hz, hday31]
      omega

theorem validMD_nextDay (d : PyDate) (h : validMD d) : validMD (nextDay d) := by
  obtain ⟨hy, hm1, hm2, hd1, hd2⟩ := h
  unfold nextDay
  by_cases hlt : d.day < daysInMonth d.year d.month
  · rw [if_pos hlt]
    unfold validMD
    dsimp only
    exact ⟨hy, hm1, hm2, by omega, by omega⟩
  · rw [if_neg hlt]
    by_cases hm : d.month < 12
    · rw [if_pos hm]
      unfold validMD
      dsimp only
      exact ⟨hy, by omega, by omega, by omega,
        one_le_daysInMonth d.year (d.month + 1) (by omega) (by omega)⟩
    · rw [if_neg hm]
      unfold validMD
      dsimp only
      exact ⟨by omega, by omega, by omega, by omega, by norm_num [daysInMonth]⟩

theorem pyWeekday_lt_seven (d : PyDate) : pyWeekday d < 7 :=
  Nat.mod_lt _ (by norm_num)

theorem pyWeekday_nextDay (d : PyDate) (h : validMD d) :
    pyWeekday (nextDay d) = (pyWeekday d + 1) % 7 := by
  unfold pyWeekday
  rw [toordinal_nextDay d h]
  omega

theorem pyWeekday_addDays_one (d : PyDate) (h : validMD d) :
    pyWeekday (addDays d 1) = (pyWeekday d + 1) % 7 := by
  show pyWeekday (addDays (nextDay d) 0) = _
  unfold addDays
  exact pyWeekday_nextDay d h

theorem pyWeekday_addDays_two (d : PyDate) (h : validMD d) :
    pyWeekday (addDays d 2) = (pyWeekday d + 2) % 7 := by
  show pyWeekday (addDays (nextDay d) 1) = _
  rw [pyWeekday_addDays_one (nextDay d) (validMD_nextDay d h), pyWeekday_nextDay d h]
  omega

theorem daysInMonth_le_31 (y m : Nat) : daysInMonth y m ≤ 31 := by
  unfold daysInMonth
  split <;> first | omega | (split <;> omega)

theorem parseDMY_pads (a b y : Nat) (ha : a ≤ 99) (hb : b ≤ 99) (hy : y ≤ 9999) :
    parseDMY (pad2 a ++ '.' :: pad2 b ++ '.' :: pad4 y) = some (a, b, y) := by
  have t1 := takeD2_pad2 a ha ('.' :: (pad2 b ++ '.' :: pad4 y))
  have t2 := takeD2_pad2 b hb ('.' :: pad4 y)
  have t3 := takeD4_pad4 y hy []
  rw [List.append_nil] at t3
  simp [parseDMY, t1, t2, t3]

theorem pyStrptimeDMY_formatDMY (d : PyDate) (h : isValidDate d) :
    pyStrptimeDMY (formatDMY d) = some d := by
  obtain ⟨h1, h2, h3, h4, h5, h6⟩ := h
  have hd99 : d.day ≤ 99 := le_trans h6 (le_trans (daysInMonth_le_31 d.year d.month) (by omega))
  have hm99 : d.month ≤ 99 := by omega
  have hfd : (formatDMY d).data = pad2 d.day ++ '.' :: pad2 d.month ++ '.' :: pad4 d.year := rfl
  unfold pyStrptimeDMY
  rw [hfd, parseDMY_pads d.day d.month d.year hd99 hm99 h2]
  dsimp only
  rw [if_pos ⟨h1, h2, h3, h4, h5, h6⟩]

/-- Successful `date.replace` certifies validity of its result. -/
theorem dateReplaceYear_ok {d : PyDate} {y : Nat} {d' : PyDate}
    (h : dateReplaceYear d y = .ok d') :
    d' = ⟨y, d.month, d.day⟩ ∧ isValidDate d' := by
  unfold dateReplaceYear at h
  split_ifs at h with h1 h2 h3
  cases h
  refine ⟨rfl, ?_⟩
  unfold isValidDate
  try dsimp only
  try push_neg at h1 h2 h3
  omega

/-! ## Helper lemmas: weekday shifting -/

theorem mondayShift_weekday (b1 : PyDate) (hv : validMD b1) :
    pyWeekday (specMondayShift b1) ≠ 5 ∧ pyWeekday (specMondayShift b1) ≠ 6 := by
  unfold specMondayShift
  by_cases h5 : pyWeekday b1 = 5
  · rw [if_pos h5, pyWeekday_addDays_two b1 hv, h5]
    decide
  · rw [if_neg h5]
    by_cases h6 : pyWeekday b1 = 6
    · rw [if_pos h6, pyWeekday_addDays_one b1 hv, h6]
      decide
    · rw [if_neg h6]
      exact ⟨h5, h6⟩

theorem specProjected_valid {bday today proj : PyDate}
    (h : specProjected bday today = some proj) : isValidDate proj := by
  unfold specProjected at h
  cases hrep : dateReplaceYear bday today.year with
  | error e =>
    rw [hrep] at h
    exact Option.noConfusion h
  | ok b0 =>
    rw [hrep] at h
    dsimp only [Except.toOption, Option.bind] at h
    by_cases hlt : dateLt b0 today = true
    · rw [if_pos hlt] at h
      cases hrep2 : dateReplaceYear b0 (today.year + 1) with
      | error e =>
        rw [hrep2] at h
        exact Option.noConfusion h
      | ok b1 =>
        rw [hrep2] at h
        dsimp only [Except.toOption] at h
        cases h
        exact (dateReplaceYear_ok hrep2).2
    · rw [if_neg hlt] at h
      cases h
      exact (dateReplaceYear_ok hrep).2

theorem specRecordEntry_weekday (today : PyDate) (p : String × Record)
    (e : UpcomingEntry) (h : specRecordEntry today p = some e) :
    ∃ d, e.congratulation_date = formatYMD d ∧ pyWeekday d ≠ 5 ∧ pyWeekday d ≠ 6 := by
  unfold specRecordEntry at h
  cases hb : p.2.birthday with
  | none =>
    rw [hb] at h
    exact Option.noConfusion h
  | some bday =>
    rw [hb] at h
    dsimp only at h
    cases hproj : specProjected bday today with
    | none =>
      rw [hproj] at h
      exact Option.noConfusion h
    | some proj =>
      rw [hproj] at h
      dsimp only at h
      split_ifs at h
      cases h
      obtain ⟨hw5, hw6⟩ :=
        mondayShift_weekday proj (validMD_of_isValidDate (specProjected_valid hproj))
      exact ⟨specMondayShift proj, rfl, hw5, hw6⟩

/-! ## Helper lemmas: the upcoming-birthdays loop -/

theorem mondayShift_code_eq (b1 : PyDate) :
    (if pyWeekday b1 == 5 then addDays b1 2
     else if pyWeekday b1 == 6 then addDays b1 1 else b1) = specMondayShift b1 := by
  unfold specMondayShift
  by_cases h5 : pyWeekday b1 = 5
  · simp [h5]
  · by_cases h6 : pyWeekday b1 = 6 <;> simp [h5, h6]

theorem upcomingAux_ok_eq (today : PyDate) (l : List (String × Record))
    (out : List UpcomingEntry) (h : AddressBook.upcomingAux today l = .ok out) :
    out = l.filterMap (specRecordEntry today) := by
  induction l generalizing out with
  | nil =>
    cases h
    rfl
  | cons p rest ih =>
    obtain ⟨k, record⟩ := p
    unfold AddressBook.upcomingAux at h
    cases hb : record.birthday with
    | none =>
      rw [hb] at h
      dsimp only at h
      rw [List.filterMap_cons_none (by dsimp only [specRecordEntry]; rw [hb])]
      exact ih out h
    | some bday =>
      rw [hb] at h
      dsimp only at h
      cases hrep : dateReplaceYear bday today.year with
      | error e =>
        rw [hrep] at h
        dsimp only at h
        exact Except.noConfusion h
      | ok b0 =>
        rw [hrep] at h
        dsimp only at h
        by_cases hlt : dateLt b0 today = true
        · rw [if_pos hlt] at h
          cases hrep2 : dateReplaceYear b0 (today.year + 1) with
          | error e =>
            rw [hrep2] at h
            dsimp only at h
            exact Except.noConfusion h
          | ok b1 =>
            rw [hrep2] at h
            dsimp only at h
            have hproj : specProjected bday today = some b1 := by
              unfold specProjected
              rw [hrep]
              dsimp only [Except.toOption, Option.bind]
              rw [if_pos hlt, hrep2]
            by_cases hdays : 0 ≤ dateSubDays b1 today ∧ dateSubDays b1 today ≤ 6
            · rw [if_pos hdays] at h
              cases haux : AddressBook.upcomingAux today rest with
              | error e =>
                rw [haux] at h
                dsimp only [Except.map] at h
                exact Except.noConfusion h
              | ok out2 =>
                rw [haux] at h
                dsimp only [Except.map] at h
                cases h
                rw [List.filterMap_cons_some (b := ⟨record.name,
                    formatYMD (specMondayShift b1)⟩)
                  (by dsimp only [specRecordEntry]; rw [hb]; dsimp only;
                      rw [hproj]; dsimp only; rw [if_pos hdays])]
                rw [mondayShift_code_eq b1]
                rw [ih out2 haux]
            · rw [if_neg hdays] at h
              rw [List.filterMap_cons_none
                (by dsimp only [specRecordEntry]; rw [hb]; dsimp only;
                    rw [hproj]; dsimp only; rw [if_neg hdays])]
              exact ih out h
        · rw [if_neg hlt] at h
          dsimp only at h
          have hproj : specProjected bday today = some b0 := by
            unfold specProjected
            rw [hrep]
            dsimp only [Except.toOption, Option.bind]
            rw [if_neg hlt]
          by_cases hdays : 0 ≤ dateSubDays b0 today ∧ dateSubDays b0 today ≤ 6
          · rw [if_pos hdays] at h
            cases haux : AddressBook.upcomingAux today rest with
            | error e =>
              rw [haux] at h
              dsimp only [Except.map] at h
              exact Except.noConfusion h
            | ok out2 =>
              rw [haux] at h
              dsimp only [Except.map] at h
              cases h
              rw [List.filterMap_cons_some (b := ⟨record.name,
                  formatYMD (specMondayShift b0)⟩)
                (by dsimp only [specRecordEntry]; rw [hb]; dsimp only;
                    rw [hproj]; dsimp only; rw [if_pos hdays])]
              rw [mondayShift_code_eq b0]
              rw [ih out2 haux]
          · rw [if_neg hdays] at h
            rw [List.filterMap_cons_none
              (by dsimp only [specRecordEntry]; rw [hb]; dsimp only;
                  rw [hproj]; dsimp only; rw [if_neg hdays])]
            exact ih out h


/-! ## Helper lemmas: dictionary operations -/

theorem pyIsDigitChar_of_ascii {c : Char} (h : isAsciiDigit c = true) :
    pyIsDigitChar c = true := by
  unfold isAsciiDigit at h
  rw [decide_eq_true_eq] at h
  unfold pyIsDigitChar pyDigitRanges
  simp only [List.any_cons, List.any_nil, Bool.or_eq_true, decide_eq_true_eq]
  exact Or.inl h

theorem get_none_iff (book : AddressBook) (name : String) :
    AddressBook.get book name = none ↔ AddressBook.hasKey book name = false := by
  unfold AddressBook.get AddressBook.hasKey
  rw [Option.map_eq_none', List.find?_eq_none]
  constructor
  · intro h
    rw [← Bool.not_eq_true, List.any_eq_true]
    rintro ⟨x, hx, hpx⟩
    exact absurd hpx (h x hx)
  · intro h x hx hpx
    rw [← Bool.not_eq_true, List.any_eq_true] at h
    exact h ⟨x, hx, hpx⟩

theorem get_some_of_hasKey (book : AddressBook) (name : String)
    (h : AddressBook.hasKey book name = true) :
    ∃ r, AddressBook.get book name = some r := by
  cases hg : AddressBook.get book name with
  | some r => exact ⟨r, rfl⟩
  | none =>
    rw [get_none_iff] at hg
    rw [hg] at h
    exact Bool.noConfusion h

theorem hasKey_eraseP (book : AddressBook) (name : String) (hnd : keysNodup book) :
    AddressBook.hasKey (book.eraseP (fun p => p.1 == name)) name = false := by
  induction book with
  | nil => rfl
  | cons p rest ih =>
    unfold keysNodup at hnd
    simp only [List.map_cons, List.nodup_cons] at hnd
    obtain ⟨hp, hrest⟩ := hnd
    by_cases hb : (p.1 == name) = true
    · have he : List.eraseP (fun q => q.1 == name) (p :: rest) = rest :=
        List.eraseP_cons_of_pos hb
      rw [he]
      rw [← Bool.not_eq_true]
      unfold AddressBook.hasKey
      rw [List.any_eq_true]
      rintro ⟨x, hx, hpx⟩
      rw [beq_iff_eq] at hb hpx
      refine hp ?_
      rw [hb, ← hpx]
      exact List.mem_map.mpr ⟨x, hx, rfl⟩
    · have he : List.eraseP (fun q => q.1 == name) (p :: rest) =
          p :: List.eraseP (fun q => q.1 == name) rest :=
        List.eraseP_cons_of_neg hb
      rw [he]
      unfold AddressBook.hasKey
      rw [Bool.not_eq_true] at hb
      rw [List.any_cons, hb, Bool.false_or]
      exact ih hrest

theorem reachable_invariant (b : AddressBook) (h : Reachable b) :
    keysNodup b ∧ ∀ p ∈ b, p.1 = p.2.name := by
  induction h with
  | empty =>
    refine ⟨List.nodup_nil, ?_⟩
    intro p hp
    cases hp
  | add r hb ih =>
    rename_i b2
    obtain ⟨ihk, ihn⟩ := ih
    unfold AddressBook.add_record
    by_cases hmem : b2.any (fun p => p.1 == r.name) = true
    · rw [if_pos hmem]
      constructor
      · unfold keysNodup
        have hkeys : (b2.map (fun p => if p.1 == r.name then (r.name, r) else p)).map Prod.fst
            = b2.map Prod.fst := by
          rw [List.map_map]
          apply List.map_congr_left
          intro q hq
          by_cases hbq : (q.1 == r.name) = true
          · show (if (q.1 == r.name) = true then (r.name, r) else q).1 = q.1
            rw [if_pos hbq]
            exact (eq_of_beq hbq).symm
          · show (if (q.1 == r.name) = true then (r.name, r) else q).1 = q.1
            rw [if_neg hbq]
        rw [hkeys]
        exact ihk
      · intro p hp
        obtain ⟨q, hq, hqe⟩ := List.mem_map.mp hp
        by_cases hbq : (q.1 == r.name) = true
        · rw [if_pos hbq] at hqe
          rw [← hqe]
        · rw [if_neg hbq] at hqe
          rw [← hqe]
          exact ihn q hq
    · rw [if_neg hmem]
      have hnot : r.name ∉ b2.map Prod.fst := by
        intro hc
        obtain ⟨q, hq, hqe⟩ := List.mem_map.mp hc
        refine hmem ?_
        rw [List.any_eq_true]
        exact ⟨q, hq, by rw [beq_iff_eq, hqe]⟩
      constructor
      · unfold keysNodup at ihk ⊢
        rw [List.map_append]
        simp [List.nodup_append, ihk, hnot]
      · intro p hp
        rcases List.mem_append.mp hp with hp | hp
        · exact ihn p hp
        · simp only [List.mem_singleton] at hp
          rw [hp]
  | del n hb ih =>
    rename_i b2
    obtain ⟨ihk, ihn⟩ := ih
    unfold AddressBook.delete
    by_cases hk : AddressBook.hasKey b2 n = true
    · rw [if_pos hk]
      dsimp only
      constructor
      · unfold keysNodup
        exact List.Nodup.sublist (List.Sublist.map Prod.fst (List.eraseP_sublist b2)) ihk
      · intro p hp
        exact ihn p ((List.eraseP_sublist b2).subset hp)
    · rw [if_neg hk]
      exact ⟨ihk, ihn⟩


/-! ## Claim theorems -/

/-- C1 (amended): for every AddressBook and date `today` on which the query
completes without a date-projection error — equivalently, whenever it
returns a list — it considers exactly the records with a set birthday,
projects each birthday onto today's year, re-projects onto the next year
when the projection is before today, includes a record iff the projection
is 0–6 whole days ahead inclusive, shifts Saturday by 2 days and Sunday by
1 day, and returns one name/congratulation-date entry per qualifying
record, `YYYY.MM.DD`-formatted, in iteration order. -/
theorem get_upcoming_birthdays_spec_eq (book : AddressBook) (today : PyDate)
    (out : List UpcomingEntry)
    (h : AddressBook.get_upcoming_birthdays book today = .ok out) :
    out = upcomingBirthdaysSpec book today :=
  upcomingAux_ok_eq today book out h

/-- C1 witness: the four-contact scenario at today = 2024-06-10 (a Monday):
Alice's Saturday projection and Bob's Sunday projection both map to Monday
2024-06-17, Carol is 10 days ahead and excluded, Dave has no birthday. -/
theorem get_upcoming_birthdays_spec_eq_witness :
    AddressBook.get_upcoming_birthdays wbook ⟨2024, 6, 10⟩ =
      .ok [⟨"Alice", "2024.06.17"⟩, ⟨"Bob", "2024.06.17"⟩] ∧
    ([⟨"Alice", "2024.06.17"⟩, ⟨"Bob", "2024.06.17"⟩] : List UpcomingEntry) =
      upcomingBirthdaysSpec wbook ⟨2024, 6, 10⟩ :=
  ⟨by rfl, get_upcoming_birthdays_spec_eq wbook ⟨2024, 6, 10⟩
    [⟨"Alice", "2024.06.17"⟩, ⟨"Bob", "2024.06.17"⟩] (by rfl)⟩

/-- C1 counterexample: as originally stated — for every AddressBook and
every today — the claim fails: on a book holding a February 29 birthday and
today = 2026-03-01 the query raises `ValueError` instead of returning a
list of entries. -/
theorem get_upcoming_birthdays_feb29_no_result :
    AddressBook.get_upcoming_birthdays bookOlha ⟨2026, 3, 1⟩ =
      .error (.valueError "day is out of range for month") := by
  rfl

/-- C2: contrary to the specification's requirement, a February 29 birthday
projected onto a non-leap year does not resolve to a valid date: the query
propagates the `ValueError` raised by `date.replace` and produces no
result. Evaluated at the failing input (birthday 2024-02-29, today
2025-06-01). -/
theorem get_upcoming_birthdays_feb29_raises :
    AddressBook.get_upcoming_birthdays bookLesia ⟨2025, 6, 1⟩ =
      .error (.valueError "day is out of range for month") := by
  rfl

/-- C8: deserializing the stream produced by serializing any AddressBook
yields the same AddressBook — in particular the same names, and for each
name the same phone sequence and the same optional birthday. -/
theorem load_save_roundtrip (book : AddressBook) :
    load_data (save_data book) = some book := by
  have h := decEntries_enc book []
  rw [List.append_nil] at h
  show Option.map (fun q => q.1) (decEntries book.length (book.map encEntry).flatten) = some book
  rw [h]
  rfl

/-- C10: every entry the upcoming-birthdays query returns carries a
congratulation date that falls on a weekday (`weekday < 5`), never on a
Saturday (5) or a Sunday (6). -/
theorem congratulation_dates_are_weekdays (book : AddressBook) (today : PyDate)
    (out : List UpcomingEntry)
    (h : AddressBook.get_upcoming_birthdays book today = .ok out) :
    ∀ e ∈ out, ∃ d, e.congratulation_date = formatYMD d ∧
      pyWeekday d ≠ 5 ∧ pyWeekday d ≠ 6 := by
  intro e he
  rw [upcomingAux_ok_eq today book out h] at he
  obtain ⟨p, hp, hpe⟩ := List.mem_filterMap.mp he
  exact specRecordEntry_weekday today p e hpe

/-- C10 witness: Alice's Saturday projection 2024-06-15 is congratulated on
2024-06-17, a Monday. -/
theorem congratulation_dates_are_weekdays_witness :
    AddressBook.get_upcoming_birthdays wSatBook ⟨2024, 6, 10⟩ =
      .ok [⟨"Alice", "2024.06.17"⟩] ∧
    (∃ d, ("2024.06.17" : String) = formatYMD d ∧
      pyWeekday d ≠ 5 ∧ pyWeekday d ≠ 6) :=
  ⟨by rfl, congratulation_dates_are_weekdays wSatBook ⟨2024, 6, 10⟩
    [⟨"Alice", "2024.06.17"⟩] (by rfl) ⟨"Alice", "2024.06.17"⟩ (by decide)⟩


/-- C3 (amended): the Phone constructor succeeds exactly on strings of
length 10 all of whose characters are digits in the sense of Python's
`str.isdigit` — a strict superset of the ASCII digits — and fails with
ValidationError otherwise; on every string of 10 ASCII digits it succeeds
and round-trips to the same digit string. -/
theorem phone_validation_characterization (s t : String) :
    (phoneInit s = .ok t ↔ (pyIsDigitStr s = true ∧ s.length = 10 ∧ t = s)) ∧
    (¬ (pyIsDigitStr s = true ∧ s.length = 10) →
      phoneInit s = .error (.valueError "Телефонний номер повинен складатися рівно з 10 цифр.")) ∧
    ((s.data.all isAsciiDigit = true ∧ s.length = 10) → phoneInit s = .ok s) := by
  refine ⟨phoneInit_ok_iff s t, fun h => (phoneInit_error_iff s).mp h, ?_⟩
  rintro ⟨hall, hlen⟩
  rw [phoneInit_ok_iff]
  refine ⟨?_, hlen, rfl⟩
  unfold pyIsDigitStr
  rw [Bool.and_eq_true]
  constructor
  · have hlen2 : s.data.length = 10 := hlen
    cases hd : s.data with
    | nil =>
      rw [hd] at hlen2
      simp at hlen2
    | cons a l =>
      rfl
  · rw [List.all_eq_true] at hall ⊢
    intro c hc
    exact pyIsDigitChar_of_ascii (hall c hc)

/-- C3 witness: ten ASCII digits are accepted and round-trip; a short
string is rejected with the ValidationError message. -/
theorem phone_validation_characterization_witness :
    phoneInit "0123456789" = .ok "0123456789" ∧
    phoneInit "123" = .error (.valueError "Телефонний номер повинен складатися рівно з 10 цифр.") :=
  ⟨(phone_validation_characterization "0123456789" "0123456789").2.2 ⟨by rfl, by rfl⟩,
   (phone_validation_characterization "123" "123").2.1 (by decide)⟩

/-- C3 counterexample: the claim as stated — any character that is not an
ASCII decimal digit makes the constructor fail — is false: a string of ten
superscript-two characters (U+00B2), none of which is an ASCII digit, is
accepted because Python's `str.isdigit` classifies them as digits. -/
theorem phone_accepts_superscript_digits :
    phoneInit "²²²²²²²²²²" = .ok "²²²²²²²²²²" ∧
    "²²²²²²²²²²".data.all isAsciiDigit = false := by
  constructor
  · rfl
  · rfl

/-- C4: every string in `DD.MM.YYYY` form denoting a real calendar date is
accepted by the Birthday constructor and formats back to exactly the same
string; every string the `%d.%m.%Y` parse rejects — malformed or denoting a
nonexistent date such as 31.04.2024 — fails with the ValidationError
message. -/
theorem birthday_validation_roundtrip (d : PyDate) (s : String) :
    (isValidDate d → birthdayInit (formatDMY d) = .ok d) ∧
    (pyStrptimeDMY s = none →
      birthdayInit s = .error (.valueError "Дата повинна бути у форматі DD.MM.YYYY і бути коректною датою.")) := by
  constructor
  · intro h
    unfold birthdayInit
    rw [pyStrptimeDMY_formatDMY d h]
  · intro h
    unfold birthdayInit
    rw [h]

/-- C4 witness: 15.06.1990 parses and round-trips; 31.04.2024 is rejected. -/
theorem birthday_validation_roundtrip_witness :
    birthdayInit (formatDMY ⟨1990, 6, 15⟩) = .ok ⟨1990, 6, 15⟩ ∧
    birthdayInit "31.04.2024" =
      .error (.valueError "Дата повинна бути у форматі DD.MM.YYYY і бути коректною датою.") :=
  ⟨(birthday_validation_roundtrip ⟨1990, 6, 15⟩ "31.04.2024").1 (by decide),
   (birthday_validation_roundtrip ⟨1990, 6, 15⟩ "31.04.2024").2 (by rfl)⟩


/-- C5 (amended): `edit_phone` validates the new number only after finding
the old one: when no stored phone equals `old_phone` it returns false and
leaves the record unchanged without raising, even when the new number is
invalid; when some stored phone equals `old_phone` it validates the new
number — propagating the ValidationError — and on success replaces the
first occurrence in place at the same position, returning true. -/
theorem edit_phone_characterization (r : Record) (old_phone new_phone : String) :
    (old_phone ∉ r.phones → Record.edit_phone r old_phone new_phone = .ok (false, r)) ∧
    (old_phone ∈ r.phones → ¬ (pyIsDigitStr new_phone = true ∧ new_phone.length = 10) →
      Record.edit_phone r old_phone new_phone =
        .error (.valueError "Телефонний номер повинен складатися рівно з 10 цифр.")) ∧
    (old_phone ∈ r.phones → (pyIsDigitStr new_phone = true ∧ new_phone.length = 10) →
      ∃ i, r.phones[i]? = some old_phone ∧ (∀ j, j < i → r.phones[j]? ≠ some old_phone) ∧
        Record.edit_phone r old_phone new_phone =
          .ok (true, { r with phones := r.phones.set i new_phone })) := by
  refine ⟨?_, ?_, ?_⟩
  · intro h
    unfold Record.edit_phone
    rw [(findIdx?_beq_none_iff r.phones old_phone).mpr h]
  · intro hmem hinv
    unfold Record.edit_phone
    cases hidx : r.phones.findIdx? (· == old_phone) with
    | none =>
      rw [findIdx?_beq_none_iff] at hidx
      exact absurd hmem hidx
    | some i =>
      rw [(phoneInit_error_iff new_phone).mp hinv]
      rfl
  · intro hmem hval
    unfold Record.edit_phone
    cases hidx : r.phones.findIdx? (· == old_phone) with
    | none =>
      rw [findIdx?_beq_none_iff] at hidx
      exact absurd hmem hidx
    | some i =>
      obtain ⟨a, ha, hpa, hmin⟩ := findIdx?_some_spec (· == old_phone) r.phones i hidx
      rw [beq_iff_eq] at hpa
      refine ⟨i, by rw [ha, hpa], ?_, ?_⟩
      · intro j hj hc
        have hfalse := hmin j hj old_phone hc
        simp at hfalse
      · rw [(phoneInit_ok_iff new_phone new_phone).mpr ⟨hval.1, hval.2, rfl⟩]
        rfl

/-- C5 witness: editing an absent number returns false and leaves the
record unchanged. -/
theorem edit_phone_characterization_witness :
    ("9999999999" ∉ (⟨"B", ["1111111111"], none⟩ : Record).phones) ∧
    Record.edit_phone ⟨"B", ["1111111111"], none⟩ "9999999999" "7777777777" =
      .ok (false, ⟨"B", ["1111111111"], none⟩) :=
  ⟨by decide, (edit_phone_characterization ⟨"B", ["1111111111"], none⟩
    "9999999999" "7777777777").1 (by decide)⟩

/-- C5 counterexample: the claim as stated — `edit_phone` validates the new
number and propagates its ValidationError — is false when the old number is
absent: with "abc" (invalid) as the new number the call returns
`ok (false, r)` instead of raising, although validating "abc" fails. -/
theorem edit_phone_skips_validation_when_old_absent :
    Record.edit_phone rEdit "0000000000" "abc" = .ok (false, rEdit) ∧
    phoneInit "abc" = .error (.valueError "Телефонний номер повинен складатися рівно з 10 цифр.") :=
  ⟨rfl, rfl⟩

/-- C6 (amended): `add_phone` and `remove_phone` preserve distinctness of
the phone list and only append to or erase from it, and `add_phone` is
idempotent; `edit_phone` preserves distinctness only when the replacement
is not already stored elsewhere (when the new number equals a different
stored phone it introduces a duplicate). -/
theorem phones_invariants (r r2 : Record) (s old_phone new_phone : String) :
    (r.phones.Nodup → ∀ r1, Record.add_phone r s = .ok r1 →
      r1.phones.Nodup ∧ (r1.phones = r.phones ∨ r1.phones = r.phones ++ [s])) ∧
    (r.phones.Nodup → (Record.remove_phone r s).phones.Nodup) ∧
    ((Record.remove_phone r s).phones.Sublist r.phones) ∧
    (r.phones.Nodup → (new_phone ∉ r.phones ∨ new_phone = old_phone) →
      ∀ b r1, Record.edit_phone r old_phone new_phone = .ok (b, r1) → r1.phones.Nodup) ∧
    (Record.add_phone r s = .ok r2 → Record.add_phone r2 s = .ok r2) := by
  refine ⟨?_, ?_, ?_, ?_, ?_⟩
  · intro hnd r1 h1
    unfold Record.add_phone at h1
    cases hv : phoneInit s with
    | error e =>
      rw [hv] at h1
      dsimp only [Except.map] at h1
      exact Except.noConfusion h1
    | ok v =>
      have hv2 := ((phoneInit_ok_iff s v).mp hv).2.2
      rw [hv2] at hv
      rw [hv] at h1
      dsimp only [Except.map] at h1
      cases h1
      by_cases hany : (r.phones.any (· == s)) = true
      · rw [if_pos hany]
        exact ⟨hnd, Or.inl rfl⟩
      · rw [if_neg hany]
        dsimp only
        have hs : s ∉ r.phones := by
          intro hc
          refine hany ?_
          rw [List.any_eq_true]
          exact ⟨s, hc, by simp⟩
        constructor
        · simp [List.nodup_append, hnd, hs]
        · exact Or.inr rfl
  · intro hnd
    unfold Record.remove_phone
    dsimp only
    exact List.Nodup.sublist (List.eraseP_sublist _) hnd
  · unfold Record.remove_phone
    dsimp only
    exact List.eraseP_sublist _
  · intro hnd hcond b r1 h1
    unfold Record.edit_phone at h1
    cases hidx : r.phones.findIdx? (· == old_phone) with
    | none =>
      rw [hidx] at h1
      cases h1
      exact hnd
    | some i =>
      rw [hidx] at h1
      cases hp : phoneInit new_phone with
      | error e =>
        rw [hp] at h1
        dsimp only [Except.map] at h1
        exact Except.noConfusion h1
      | ok v =>
        have hv2 := ((phoneInit_ok_iff new_phone v).mp hp).2.2
        rw [hv2] at hp
        rw [hp] at h1
        dsimp only [Except.map] at h1
        cases h1
        dsimp only
        obtain ⟨a, ha, hpa, hmin⟩ := findIdx?_some_spec (· == old_phone) r.phones i hidx
        rw [beq_iff_eq] at hpa
        refine nodup_set_keep r.phones i new_phone hnd ?_
        rcases hcond with hcond | hcond
        · exact Or.inl hcond
        · right
          rw [ha, hpa, hcond]
  · intro h2
    unfold Record.add_phone at h2 ⊢
    cases hv : phoneInit s with
    | error e =>
      rw [hv] at h2
      dsimp only [Except.map] at h2
      exact Except.noConfusion h2
    | ok v =>
      have hv2 := ((phoneInit_ok_iff s v).mp hv).2.2
      rw [hv] at h2
      rw [hv2] at h2 ⊢
      dsimp only [Except.map] at h2 ⊢
      cases h2
      by_cases hany : (r.phones.any (· == s)) = true
      · rw [if_pos hany, if_pos hany]
      · rw [if_neg hany]
        dsimp only
        have hany2 : ((r.phones ++ [s]).any (· == s)) = true := by
          rw [List.any_eq_true]
          exact ⟨s, List.mem_append_right _ (List.mem_singleton.mpr rfl), by simp⟩
        rw [if_pos hany2]

/-- C6 witness: adding a phone to a fresh record keeps the list distinct
and appends at the end, and adding it again is a no-op. -/
theorem phones_invariants_witness :
    (Record.init "W").phones.Nodup ∧
    (⟨"W", ["3333333333"], none⟩ : Record).phones.Nodup ∧
    Record.add_phone ⟨"W", ["3333333333"], none⟩ "3333333333" =
      .ok ⟨"W", ["3333333333"], none⟩ := by
  refine ⟨by decide, ?_, ?_⟩
  · exact ((phones_invariants (Record.init "W") ⟨"W", ["3333333333"], none⟩
      "3333333333" "a" "b").1 (by decide) ⟨"W", ["3333333333"], none⟩ (by rfl)).1
  · exact (phones_invariants (Record.init "W") ⟨"W", ["3333333333"], none⟩
      "3333333333" "a" "b").2.2.2.2 (by rfl)

/-- C6 counterexample: the claim as stated — the phone list never contains
two equal entries under any add/remove/edit sequence — is false: starting
from a fresh record, add 1111111111, add 2222222222, then edit 1111111111
to 2222222222; the resulting list holds 2222222222 twice. -/
theorem edit_phone_creates_duplicate :
    ((Record.add_phone (Record.init "A") "1111111111").bind
        (fun r => Record.add_phone r "2222222222")).bind
      (fun r => Record.edit_phone r "1111111111" "2222222222") =
      .ok (true, ⟨"A", ["2222222222", "2222222222"], none⟩) ∧
    ¬ (["2222222222", "2222222222"] : List String).Nodup :=
  ⟨rfl, by decide⟩

/-- C7: `find` returns the stored record when the name is present and
raises `KeyError` when it is absent; `delete` is total — it returns true
and removes the entry when present, false leaving the book unchanged when
absent. -/
theorem find_delete_characterization (book : AddressBook) (name : String)
    (hnd : keysNodup book) :
    (AddressBook.hasKey book name = false →
      AddressBook.find book name =
        .error (.keyError (name ++ " not found in AddressBook.")) ∧
      AddressBook.delete book name = (false, book)) ∧
    (∀ r, AddressBook.get book name = some r → AddressBook.find book name = .ok r) ∧
    (AddressBook.hasKey book name = true →
      (AddressBook.delete book name).1 = true ∧
      AddressBook.hasKey (AddressBook.delete book name).2 name = false) := by
  refine ⟨?_, ?_, ?_⟩
  · intro h
    constructor
    · unfold AddressBook.find
      rw [(get_none_iff book name).mpr h]
    · unfold AddressBook.delete
      rw [if_neg (by simp [h])]
  · intro r h
    unfold AddressBook.find
    rw [h]
  · intro h
    unfold AddressBook.delete
    rw [if_pos h]
    exact ⟨rfl, hasKey_eraseP book name hnd⟩

/-- C7 witness: on a one-entry book, finding the present name returns its
record, finding an absent name raises `KeyError`, deleting the absent name
returns false unchanged, and deleting the present name returns true and
removes it. -/
theorem find_delete_characterization_witness :
    keysNodup wSatBook ∧
    AddressBook.find wSatBook "Alice" = .ok wAlice ∧
    AddressBook.find wSatBook "Bob" =
      .error (.keyError ("Bob" ++ " not found in AddressBook.")) ∧
    AddressBook.delete wSatBook "Bob" = (false, wSatBook) ∧
    (AddressBook.delete wSatBook "Alice").1 = true ∧
    AddressBook.hasKey (AddressBook.delete wSatBook "Alice").2 "Alice" = false := by
  refine ⟨by decide, ?_, ?_, ?_, ?_, ?_⟩
  · exact (find_delete_characterization wSatBook "Alice" (by decide)).2.1 wAlice (by rfl)
  · exact ((find_delete_characterization wSatBook "Bob" (by decide)).1 (by rfl)).1
  · exact ((find_delete_characterization wSatBook "Bob" (by decide)).1 (by rfl)).2
  · exact ((find_delete_characterization wSatBook "Alice" (by decide)).2.2 (by rfl)).1
  · exact ((find_delete_characterization wSatBook "Alice" (by decide)).2.2 (by rfl)).2

/-- C9 (amended): every book reachable through `add_record` and `delete`
has pairwise-distinct keys, each key equals its record's own name, and no
record operation changes the name after creation; the name is, however, not
validated to be non-empty. -/
theorem addressbook_key_invariants (b : AddressBook) (hreach : Reachable b)
    (r : Record) (s old_phone new_phone : String) :
    keysNodup b ∧ (∀ p ∈ b, p.1 = p.2.name) ∧
    ((Record.init s).name = s) ∧
    (∀ r1, Record.add_phone r s = .ok r1 → r1.name = r.name) ∧
    ((Record.remove_phone r s).name = r.name) ∧
    (∀ q, Record.edit_phone r old_phone new_phone = .ok q → q.2.name = r.name) ∧
    (∀ r1, Record.add_birthday r s = .ok r1 → r1.name = r.name) := by
  obtain ⟨hk, hn⟩ := reachable_invariant b hreach
  refine ⟨hk, hn, rfl, ?_, rfl, ?_, ?_⟩
  · intro r1 h1
    unfold Record.add_phone at h1
    cases hv : phoneInit s with
    | error e =>
      rw [hv] at h1
      dsimp only [Except.map] at h1
      exact Except.noConfusion h1
    | ok v =>
      rw [hv] at h1
      dsimp only [Except.map] at h1
      cases h1
      by_cases hany : (r.phones.any (· == v)) = true
      · rw [if_pos hany]
      · rw [if_neg hany]
  · intro q h1
    unfold Record.edit_phone at h1
    cases hidx : r.phones.findIdx? (· == old_phone) with
    | none =>
      rw [hidx] at h1
      cases h1
      rfl
    | some i =>
      rw [hidx] at h1
      cases hv : phoneInit new_phone with
      | error e =>
        rw [hv] at h1
        dsimp only [Except.map] at h1
        exact Except.noConfusion h1
      | ok v =>
        rw [hv] at h1
        dsimp only [Except.map] at h1
        cases h1
        rfl
  · intro r1 h1
    unfold Record.add_birthday at h1
    cases hv : birthdayInit s with
    | error e =>
      rw [hv] at h1
      dsimp only [Except.map] at h1
      exact Except.noConfusion h1
    | ok d =>
      rw [hv] at h1
      dsimp only [Except.map] at h1
      cases h1
      rfl

/-- C9 witness: the book obtained by adding one record to the empty book is
reachable and satisfies the key invariants. -/
theorem addressbook_key_invariants_witness :
    Reachable (AddressBook.add_record [] wAlice) ∧
    keysNodup (AddressBook.add_record [] wAlice) :=
  ⟨Reachable.add wAlice Reachable.empty,
   (addressbook_key_invariants (AddressBook.add_record [] wAlice)
     (Reachable.add wAlice Reachable.empty) wAlice "x" "y" "z").1⟩

/-- C9 counterexample: the claim as stated also asserts every record name
is non-empty, but records are constructed without validation: a book whose
single entry has the empty-string name is reachable through `add_record`. -/
theorem empty_name_reachable :
    Reachable [("", Record.init "")] ∧ (Record.init "").name = "" := by
  constructor
  · exact Reachable.add (Record.init "") Reachable.empty
  · rfl
